import Mathlib

/-!
Shallow embedding of the topology layer of winton-kafka-streams:
`winton_kafka_streams/processor/topology.py` (ProcessorNode, Topology,
TopologyBuilder) and `winton_kafka_streams/processor/_context.py` (Context).

Modelling conventions.

Python exceptions become an explicit error type `PyError`; each constructor
corresponds to one raise site (or one built-in exception kind) in the source:
- `duplicateName n` : the KafkaStreamsError raised in `_add_node` when a node
  named n is already in the node mapping;
- `selfInput n` : the KafkaStreamsError raised in `_add_node` when a node
  lists itself as an input;
- `missingInputs n` : the KafkaStreamsError raised by the second `any` check
  of `_add_node` (unreachable in the source, kept for fidelity);
- `noInputs n` : the KafkaStreamsError raised eagerly by
  `TopologyBuilder.processor` when the parent tuple is empty;
- `storeNone` / `duplicateStore n` : the two KafkaStreamsError raises of
  `TopologyBuilder.state_store`;
- `keyError k` : the Python built-in KeyError raised by the dict lookup
  `nodes[i]` in `_add_node` when key k is absent;
- `noCurrentNode` / `storeNotFound s n` : the two KafkaStreamsError raises of
  `Context.get_store`.
All constructors other than `keyError` model a KafkaStreamsError, the single
"topology construction / context access" error class of the repository.

Python dicts keyed by strings become association lists (insertion ordered,
first-match lookup, unique keys in every state the code can reach); the
in-place mutation `nodes[i].children.append(processor)` becomes the pure
update `appendChild`. Node object references stored in children lists are
represented by node names, which is faithful because node names are unique
keys of the node mapping. Processor instances and store factories are opaque
values carrying only the data the code inspects.

Each builder method returns the pair of the updated builder state and the
Python return value (`PyRet.builderRef` for `return self`, `PyRet.noneVal`
for a method with no return statement), or an error.
-/

/-- Python exception raised by the embedded code; see the header comment for
the raise site each constructor corresponds to. -/
inductive PyError where
  | duplicateName (name : String)
  | selfInput (name : String)
  | missingInputs (name : String)
  | noInputs (name : String)
  | storeNone
  | duplicateStore (name : String)
  | keyError (key : String)
  | noCurrentNode
  | storeNotFound (store : String) (node : String)
  deriving DecidableEq, Repr

/-- True for the constructors that model a KafkaStreamsError (the single
construction/context error class); false for the Python built-in KeyError. -/
def PyError.isKafkaStreamsError : PyError → Bool
  | .keyError _ => false
  | _ => true

/-- The processor instance wrapped by a node: `SourceProcessor(topics)`,
`processor_type()` (identified by an opaque tag), or `SinkProcessor(topic)`. -/
inductive Proc where
  | sourceProc (topics : List String)
  | userProc (tag : Nat)
  | sinkProc (topic : String)
  deriving DecidableEq, Repr

/-- `ProcessorNode.__init__`: a name, the wrapped processor, and a children
list that starts empty; children hold the names of the appended nodes. -/
structure ProcessorNode where
  name : String
  processor : Proc
  children : List String
  deriving DecidableEq, Repr

/-- The `nodes` dict of `TopologyBuilder.build`, as an association list. -/
abbrev Nodes := List (String × ProcessorNode)

/-- First-match association-list lookup, the embedding of a Python dict
string-key lookup. -/
def alookup {α : Type} : List (String × α) → String → Option α
  | [], _ => none
  | (k, v) :: rest, n => if k == n then some v else alookup rest n

/-- `name in nodes` on a Python dict. -/
def containsName (nodes : Nodes) (n : String) : Bool :=
  (alookup nodes n).isSome

/-- The keys of the node mapping in insertion order. -/
def namesOf (nodes : Nodes) : List String :=
  nodes.map (fun e => e.1)

/-- `nodes[p].children.append(c)`: append c to the children of the node under
key p, leaving everything else unchanged. -/
def appendChild (nodes : Nodes) (p c : String) : Nodes :=
  nodes.map (fun e =>
    if e.1 == p then (e.1, { e.2 with children := e.2.children ++ [c] }) else e)

/-- `list(nodes[i] for i in inputs)`: the dict lookups run left to right and
the first absent key raises KeyError. -/
def lookupAll (nodes : Nodes) : List String → Except PyError (List ProcessorNode)
  | [] => .ok []
  | i :: rest =>
    match alookup nodes i with
    | none => .error (.keyError i)
    | some nd =>
      match lookupAll nodes rest with
      | .error e => .error e
      | .ok tl => .ok (nd :: tl)

/-- `TopologyBuilder._add_node`, line by line: duplicate-name check, insertion
of the new node into the mapping, lookup of every input (KeyError on a missing
key), the self-input check, the (unreachable) second existence check, and the
children appends. -/
def add_node (nodes : Nodes) (name : String) (node : ProcessorNode)
    (inputs : List String) : Except PyError Nodes :=
  if containsName nodes name then
    .error (.duplicateName name)
  else
    match lookupAll (nodes ++ [(name, node)]) inputs with
    | .error e => .error e
    | .ok node_inputs =>
      if node_inputs.any (fun n => n.name == name) then
        .error (.selfInput name)
      else if node_inputs.any (fun n => !(containsName (nodes ++ [(name, node)]) n.name)) then
        .error (.missingInputs name)
      else
        .ok (inputs.foldl (fun ns i => appendChild ns i name) (nodes ++ [(name, node)]))

/-- The deferred instruction recorded by `TopologyBuilder.source`. -/
structure SourceSpec where
  name : String
  topics : List String
  deriving DecidableEq, Repr

/-- The deferred instruction recorded by `TopologyBuilder.processor`; the
processor type is an opaque tag. -/
structure ProcessorSpec where
  name : String
  procTag : Nat
  parents : List String
  deriving DecidableEq, Repr

/-- The deferred instruction recorded by `TopologyBuilder.sink`. -/
structure SinkSpec where
  name : String
  topic : String
  parents : List String
  deriving DecidableEq, Repr

/-- A deferred node-construction instruction of any of the three kinds. -/
inductive NodeSpec where
  | src (s : SourceSpec)
  | proc (p : ProcessorSpec)
  | snk (s : SinkSpec)
  deriving DecidableEq, Repr

/-- The node name an instruction declares. -/
def NodeSpec.name : NodeSpec → String
  | .src s => s.name
  | .proc p => p.name
  | .snk s => s.name

/-- The inputs `_add_node` receives for an instruction: sources pass `[]`,
processors and sinks pass their recorded parent tuples. -/
def NodeSpec.parents : NodeSpec → List String
  | .src _ => []
  | .proc p => p.parents
  | .snk s => s.parents

/-- The ProcessorNode allocated when an instruction is resolved
(`build_source` / `build_processor` / `build_sink`). -/
def NodeSpec.mkNode : NodeSpec → ProcessorNode
  | .src s => ⟨s.name, .sourceProc s.topics, []⟩
  | .proc p => ⟨p.name, .userProc p.procTag, []⟩
  | .snk s => ⟨s.name, .sinkProc s.topic, []⟩

/-- Resolving one deferred instruction against the partial node mapping:
allocate the node and run `_add_node`. -/
def resolveOne (nodes : Nodes) (s : NodeSpec) : Except PyError Nodes :=
  add_node nodes s.name s.mkNode s.parents

/-- Resolving a list of deferred instructions in order; the first failure
aborts (a raise inside a list comprehension propagates). -/
def resolveList : List NodeSpec → Nodes → Except PyError Nodes
  | [], nodes => .ok nodes
  | s :: rest, nodes =>
    match resolveOne nodes s with
    | .error e => .error e
    | .ok nodes1 => resolveList rest nodes1

/-- A registered store factory; `name` is the `.name` attribute the duplicate
error message reads, `tag` identifies the factory. -/
structure StoreFactory where
  name : String
  tag : Nat
  deriving DecidableEq, Repr

/-- The store instance `create()` returns for a factory. -/
structure StoreInst where
  tag : Nat
  deriving DecidableEq, Repr

/-- Calling the registered factory (`create()` in `build`). -/
def instantiate (f : StoreFactory) : StoreInst :=
  ⟨f.tag⟩

/-- The value a Python method returns: `self` or `None`. -/
inductive PyRet where
  | builderRef
  | noneVal
  deriving DecidableEq, Repr

/-- `TopologyBuilder.__init__`: the topic list, the three deferred instruction
lists, and the store-factory mapping. -/
structure TopologyBuilder where
  topics : List String
  sources_ : List SourceSpec
  processors_ : List ProcessorSpec
  sinks_ : List SinkSpec
  state_stores_ : List (String × StoreFactory)
  deriving DecidableEq, Repr

/-- A fresh builder: every field empty. -/
def TopologyBuilder.init : TopologyBuilder :=
  ⟨[], [], [], [], []⟩

/-- `TopologyBuilder.source(name, topics)`: record the deferred instruction,
extend the global topic list, return self. No validation happens here. -/
def TopologyBuilder.source (b : TopologyBuilder) (name : String)
    (topics : List String) : Except PyError (TopologyBuilder × PyRet) :=
  .ok ({ b with sources_ := b.sources_ ++ [⟨name, topics⟩],
                topics := b.topics ++ topics }, .builderRef)

/-- `TopologyBuilder.processor(name, processor_type, *parents)`: raise
KafkaStreamsError eagerly when the parent tuple is empty, otherwise record
the deferred instruction and return self. -/
def TopologyBuilder.processor (b : TopologyBuilder) (name : String)
    (procTag : Nat) (parents : List String) :
    Except PyError (TopologyBuilder × PyRet) :=
  if parents.isEmpty then
    .error (.noInputs name)
  else
    .ok ({ b with processors_ := b.processors_ ++ [⟨name, procTag, parents⟩] },
         .builderRef)

/-- `TopologyBuilder.sink(name, topic, *parents)`: record the deferred
instruction and return self; the source performs no eager validation here. -/
def TopologyBuilder.sink (b : TopologyBuilder) (name : String) (topic : String)
    (parents : List String) : Except PyError (TopologyBuilder × PyRet) :=
  .ok ({ b with sinks_ := b.sinks_ ++ [⟨name, topic, parents⟩] }, .builderRef)

/-- `TopologyBuilder.state_store(store_name, store, *args)`: raise when the
factory is None, raise when the store name is already registered (the message
reads the `.name` attribute of the new factory), otherwise record the factory.
The `*args` attachment targets are never read, and the method has no return
statement, so it returns None. -/
def TopologyBuilder.state_store (b : TopologyBuilder) (store_name : String)
    (store : Option StoreFactory) (args : List String) :
    Except PyError (TopologyBuilder × PyRet) :=
  match store with
  | none => .error .storeNone
  | some st =>
    if (alookup b.state_stores_ store_name).isSome then
      .error (.duplicateStore st.name)
    else
      .ok ({ b with state_stores_ := b.state_stores_ ++ [(store_name, st)] },
           .noneVal)

/-- `Topology.__init__`: the resolved node mapping, the three per-kind name
lists (standing for the node-object lists, nodes being identified by their
unique names), and the instantiated stores. -/
structure Topology where
  nodes : Nodes
  sources : List String
  processors : List String
  sinks : List String
  state_stores : List (String × StoreInst)
  deriving DecidableEq, Repr

/-- `TopologyBuilder.build`: resolve all sources, then all processors, then
all sinks, each against the node mapping built so far, then instantiate every
registered store factory and return the Topology. -/
def TopologyBuilder.build (b : TopologyBuilder) : Except PyError Topology :=
  match resolveList (b.sources_.map NodeSpec.src) [] with
  | .error e => .error e
  | .ok n1 =>
    match resolveList (b.processors_.map NodeSpec.proc) n1 with
    | .error e => .error e
    | .ok n2 =>
      match resolveList (b.sinks_.map NodeSpec.snk) n2 with
      | .error e => .error e
      | .ok n3 =>
        .ok ⟨n3,
             b.sources_.map SourceSpec.name,
             b.processors_.map ProcessorSpec.name,
             b.sinks_.map SinkSpec.name,
             b.state_stores_.map (fun p => (p.1, instantiate p.2))⟩

/-- All deferred instructions of a builder, in the fixed resolution order:
sources, then processors, then sinks. -/
def allSpecs (b : TopologyBuilder) : List NodeSpec :=
  b.sources_.map NodeSpec.src ++ b.processors_.map NodeSpec.proc
    ++ b.sinks_.map NodeSpec.snk

/-- The node object a Context can be bound to, carrying what `get_store`
reads: the node name and the `stores` mapping attached to the node. -/
structure CtxNode where
  name : String
  stores : List (String × StoreInst)
  deriving DecidableEq, Repr

/-- `Context.__init__` sets `currentNode = None`; the runtime later binds a
node. An unbound context holds `none` (a node object is always truthy in
Python, so the `if not self.currentNode` test means exactly `none`). -/
structure Context where
  currentNode : Option CtxNode
  deriving DecidableEq, Repr

/-- A freshly constructed Context: unbound. -/
def Context.init : Context :=
  ⟨none⟩

/-- `Context.get_store(name)`: raise if no node is bound, raise if the name is
not in the stores of the bound node, otherwise return the store. -/
def Context.get_store (ctx : Context) (name : String) :
    Except PyError StoreInst :=
  match ctx.currentNode with
  | none => .error .noCurrentNode
  | some node =>
    match alookup node.stores name with
    | none => .error (.storeNotFound name node.name)
    | some s => .ok s

/-- Registration validity as the claims state it: walking the instructions in
resolution order, every name is fresh and every declared parent was resolved
earlier. `seen` accumulates the names already resolved. -/
def validSpecs : List NodeSpec → List String → Bool
  | [], _ => true
  | s :: rest, seen =>
    !seen.contains s.name && s.parents.all (fun p => seen.contains p)
      && validSpecs rest (seen ++ [s.name])

/-- The parent-to-child edge is recorded in the node mapping: the parent is
present and its children list contains the child name. -/
def hasEdge (nodes : Nodes) (p c : String) : Bool :=
  match alookup nodes p with
  | none => false
  | some nd => nd.children.contains c

/-- Every node of the mapping is stored under its own name (an invariant of
every mapping `build` constructs). -/
def WFNodes (nodes : Nodes) : Prop :=
  ∀ e ∈ nodes, (e.2 : ProcessorNode).name = e.1

/-- The example scenario of the spec: source "src" from "topic-in", processor
"proc" reading "src", sink "snk" to "topic-out" reading "proc". -/
def exampleBuilder : TopologyBuilder :=
  ⟨["topic-in"], [⟨"src", ["topic-in"]⟩], [⟨"proc", 0, ["src"]⟩],
   [⟨"snk", "topic-out", ["proc"]⟩], []⟩

/-- A builder holding only `processor("proc", MyProc, "missing")`. -/
def procMissingBuilder : TopologyBuilder :=
  ⟨[], [], [⟨"proc", 0, ["missing"]⟩], [], []⟩

/-- A builder holding exactly one pair of registrations that share the name
"a": a processor and a sink, both with parent "b". -/
def dupPairBuilder : TopologyBuilder :=
  ⟨[], [], [⟨"a", 0, ["b"]⟩], [⟨"a", "t", ["b"]⟩], []⟩

/-- Two source registrations sharing the name "a". -/
def dupSourcesBuilder : TopologyBuilder :=
  ⟨[], [⟨"a", ["t"]⟩, ⟨"a", ["t"]⟩], [], [], []⟩

/-- One processor whose parent list contains its own name and then a name
that was never registered. -/
def selfMissingBuilder : TopologyBuilder :=
  ⟨[], [], [⟨"p", 0, ["p", "q"]⟩], [], []⟩

/-- One processor whose only declared parent is itself. -/
def selfOnlyBuilder : TopologyBuilder :=
  ⟨[], [], [⟨"p", 0, ["p"]⟩], [], []⟩

/-- The builder state after one successful state_store("store1", factory)
call on a fresh builder. -/
def storeOnceBuilder : TopologyBuilder :=
  ⟨[], [], [], [], [("store1", ⟨"store1", 5⟩)]⟩

/-- A node "N" with the store "A" attached. -/
def nodeN : CtxNode := ⟨"N", [("A", ⟨1⟩)]⟩

/-- A node "M" with the store "B" attached. -/
def nodeM : CtxNode := ⟨"M", [("B", ⟨2⟩)]⟩

/-- A context bound to node "N". -/
def ctxN : Context := ⟨some nodeN⟩

/-- A context bound to node "M". -/
def ctxM : Context := ⟨some nodeM⟩

/-! Association-list lemmas. -/

theorem alookup_mem {α : Type} (l : List (String × α)) (n : String) (v : α)
    (h : alookup l n = some v) : (n, v) ∈ l := by
  induction l with
  | nil => cases h
  | cons hd tl ih =>
    obtain ⟨k, w⟩ := hd
    by_cases hk : k = n
    · subst hk
      simp [alookup] at h
      simp [h]
    · simp [alookup, beq_iff_eq, hk] at h
      simp [ih h]

theorem alookup_cons {α : Type} (k : String) (v : α) (tl : List (String × α))
    (n : String) :
    alookup ((k, v) :: tl) n = if k == n then some v else alookup tl n := rfl

theorem containsName_iff_mem (ns : Nodes) (n : String) :
    containsName ns n = true ↔ n ∈ namesOf ns := by
  unfold containsName namesOf
  induction ns with
  | nil => simp [alookup]
  | cons hd tl ih =>
    obtain ⟨k, v⟩ := hd
    by_cases hk : k = n
    · subst hk
      simp [alookup_cons]
    · have hk2 : ¬ n = k := fun h => hk h.symm
      rw [alookup_cons, if_neg (by simp [hk]), List.map_cons, List.mem_cons,
        or_iff_right hk2]
      exact ih

theorem alookup_none_of_contains_false {α : Type} (l : List (String × α))
    (n : String) (h : (alookup l n).isSome = false) : alookup l n = none := by
  cases hl : alookup l n with
  | none => rfl
  | some v => rw [hl] at h; cases h

theorem alookup_append_left {α : Type} (l l2 : List (String × α)) (n : String)
    (v : α) (h : alookup l n = some v) : alookup (l ++ l2) n = some v := by
  induction l with
  | nil => cases h
  | cons hd tl ih =>
    obtain ⟨k, w⟩ := hd
    by_cases hk : k = n
    · subst hk
      simp [alookup] at h ⊢
      exact h
    · simp [alookup, beq_iff_eq, hk] at h ⊢
      exact ih h

theorem alookup_append_right {α : Type} (l l2 : List (String × α)) (n : String)
    (h : alookup l n = none) : alookup (l ++ l2) n = alookup l2 n := by
  induction l with
  | nil => rfl
  | cons hd tl ih =>
    obtain ⟨k, w⟩ := hd
    by_cases hk : k = n
    · subst hk
      simp [alookup] at h
    · simp [alookup, beq_iff_eq, hk] at h ⊢
      exact ih h

theorem namesOf_append (ns : Nodes) (e : String × ProcessorNode) :
    namesOf (ns ++ [e]) = namesOf ns ++ [e.1] := by
  simp [namesOf]

/-! Lemmas about the children-append update. -/

theorem keys_map_update (f : (String × ProcessorNode) → (String × ProcessorNode))
    (hf : ∀ e, (f e).1 = e.1) (l : Nodes) :
    List.map (fun e => e.1) (List.map f l) = List.map (fun e => e.1) l := by
  induction l with
  | nil => rfl
  | cons hd tl ih =>
    rw [List.map_cons, List.map_cons, List.map_cons, ih, hf hd]

theorem namesOf_appendChild (ns : Nodes) (p c : String) :
    namesOf (appendChild ns p c) = namesOf ns := by
  unfold namesOf appendChild
  apply keys_map_update
  intro e
  by_cases h : e.1 == p
  · rw [if_pos h]
  · rw [if_neg h]

theorem alookup_appendChild_ne (ns : Nodes) (p c q : String) (h : p ≠ q) :
    alookup (appendChild ns p c) q = alookup ns q := by
  induction ns with
  | nil => rfl
  | cons hd tl ih =>
    obtain ⟨k, v⟩ := hd
    by_cases hk : k = p
    · subst hk
      have hq : ¬ k = q := fun he => h he
      simp only [appendChild, List.map_cons, beq_self_eq_true, if_true]
      rw [alookup_cons, alookup_cons, if_neg (by simp [hq]), if_neg (by simp [hq])]
      exact ih
    · by_cases hq : k = q
      · subst hq
        simp only [appendChild, List.map_cons]
        rw [if_neg (by simp [hk])]
        rw [alookup_cons, alookup_cons, if_pos (by simp), if_pos (by simp)]
      · simp only [appendChild, List.map_cons]
        rw [if_neg (by simp [hk])]
        rw [alookup_cons, alookup_cons, if_neg (by simp [hq]), if_neg (by simp [hq])]
        exact ih

theorem alookup_appendChild_self (ns : Nodes) (p c : String) :
    alookup (appendChild ns p c) p
      = (alookup ns p).map (fun nd => { nd with children := nd.children ++ [c] }) := by
  induction ns with
  | nil => rfl
  | cons hd tl ih =>
    obtain ⟨k, v⟩ := hd
    by_cases hk : k = p
    · subst hk
      simp only [appendChild, List.map_cons, beq_self_eq_true, if_true]
      rw [alookup_cons, alookup_cons, if_pos (by simp), if_pos (by simp)]
      rfl
    · simp only [appendChild, List.map_cons]
      rw [if_neg (by simp [hk])]
      rw [alookup_cons, alookup_cons, if_neg (by simp [hk]), if_neg (by simp [hk])]
      exact ih

theorem alookup_appendChild_self_some (ns : Nodes) (p c : String)
    (nd : ProcessorNode) (h : alookup ns p = some nd) :
    alookup (appendChild ns p c) p
      = some { nd with children := nd.children ++ [c] } := by
  rw [alookup_appendChild_self, h]
  rfl

theorem hasEdge_mono_appendChild (ns : Nodes) (p c a b : String)
    (h : hasEdge ns a b = true) : hasEdge (appendChild ns p c) a b = true := by
  unfold hasEdge at h ⊢
  by_cases hp : p = a
  · subst hp
    cases hl : alookup ns p with
    | none => rw [hl] at h; cases h
    | some nd =>
      rw [hl] at h
      rw [alookup_appendChild_self_some ns p c nd hl]
      have hb : b ∈ nd.children := by simpa using h
      simp [List.mem_append, hb]
  · rw [alookup_appendChild_ne ns p c a hp]
    exact h

theorem hasEdge_mono_append (ns : Nodes) (e : String × ProcessorNode)
    (a b : String) (h : hasEdge ns a b = true) :
    hasEdge (ns ++ [e]) a b = true := by
  unfold hasEdge at h ⊢
  cases hl : alookup ns a with
  | none => rw [hl] at h; cases h
  | some nd =>
    rw [alookup_append_left _ _ _ _ hl]
    rw [hl] at h
    exact h

theorem foldl_appendChild_names (inputs : List String) (ns : Nodes) (c : String) :
    namesOf (inputs.foldl (fun acc i => appendChild acc i c) ns) = namesOf ns := by
  induction inputs generalizing ns with
  | nil => rfl
  | cons i rest ih =>
    rw [List.foldl_cons, ih, namesOf_appendChild]

theorem foldl_appendChild_mono (inputs : List String) (ns : Nodes)
    (c a b : String) (h : hasEdge ns a b = true) :
    hasEdge (inputs.foldl (fun acc i => appendChild acc i c) ns) a b = true := by
  induction inputs generalizing ns with
  | nil => exact h
  | cons i rest ih =>
    rw [List.foldl_cons]
    exact ih _ (hasEdge_mono_appendChild _ _ _ _ _ h)

theorem foldl_appendChild_edge (inputs : List String) (ns : Nodes) (c p : String)
    (hp : p ∈ inputs) (hc : containsName ns p = true) :
    hasEdge (inputs.foldl (fun acc i => appendChild acc i c) ns) p c = true := by
  induction inputs generalizing ns with
  | nil => cases hp
  | cons i rest ih =>
    rw [List.foldl_cons]
    rcases List.mem_cons.mp hp with h | h
    · subst h
      apply foldl_appendChild_mono
      unfold hasEdge
      unfold containsName at hc
      cases hl : alookup ns p with
      | none => rw [hl] at hc; cases hc
      | some nd =>
        rw [alookup_appendChild_self_some ns p c nd hl]
        simp
    · apply ih _ h
      unfold containsName at hc ⊢
      by_cases hip : i = p
      · subst hip
        cases hl : alookup ns i with
        | none => rw [hl] at hc; cases hc
        | some nd =>
          rw [alookup_appendChild_self_some ns i c nd hl]
          rfl
      · rw [alookup_appendChild_ne _ _ _ _ hip]
        exact hc

/-! Well-formedness lemmas: nodes are stored under their own names. -/

theorem WFNodes_nil : WFNodes [] := by
  intro e he
  cases he

theorem WFNodes_alookup (ns : Nodes) (n : String) (v : ProcessorNode)
    (hWF : WFNodes ns) (h : alookup ns n = some v) : v.name = n :=
  hWF (n, v) (alookup_mem ns n v h)

theorem WFNodes_append (ns : Nodes) (name : String) (node : ProcessorNode)
    (hWF : WFNodes ns) (h : node.name = name) :
    WFNodes (ns ++ [(name, node)]) := by
  intro e he
  rcases List.mem_append.mp he with h1 | h1
  · exact hWF e h1
  · have : e = (name, node) := by simpa using h1
    subst this
    exact h

theorem WFNodes_appendChild (ns : Nodes) (p c : String) (hWF : WFNodes ns) :
    WFNodes (appendChild ns p c) := by
  intro e he
  unfold appendChild at he
  rcases List.mem_map.mp he with ⟨e0, he0, heq⟩
  by_cases h : e0.1 == p
  · rw [if_pos h] at heq
    subst heq
    exact hWF e0 he0
  · rw [if_neg h] at heq
    subst heq
    exact hWF e0 he0

theorem WFNodes_foldl (inputs : List String) (ns : Nodes) (c : String)
    (hWF : WFNodes ns) :
    WFNodes (inputs.foldl (fun acc i => appendChild acc i c) ns) := by
  induction inputs generalizing ns with
  | nil => exact hWF
  | cons i rest ih =>
    rw [List.foldl_cons]
    exact ih _ (WFNodes_appendChild _ _ _ hWF)

/-! Lemmas about the input lookups of `_add_node`. -/

theorem lookupAll_ok_of_forall (ns : Nodes) (inputs : List String)
    (h : ∀ i ∈ inputs, (alookup ns i).isSome = true) :
    ∃ out, lookupAll ns inputs = .ok out
      ∧ ∀ nd ∈ out, ∃ i ∈ inputs, alookup ns i = some nd := by
  induction inputs with
  | nil =>
    refine ⟨[], rfl, ?_⟩
    intro nd h2
    cases h2
  | cons i rest ih =>
    have hi := h i (by simp)
    cases hl : alookup ns i with
    | none => rw [hl] at hi; cases hi
    | some nd =>
      obtain ⟨out, hout, hprop⟩ := ih (fun j hj => h j (by simp [hj]))
      refine ⟨nd :: out, ?_, ?_⟩
      · unfold lookupAll
        rw [hl, hout]
      · intro nd2 h2
        rcases List.mem_cons.mp h2 with h3 | h3
        · subst h3
          exact ⟨i, by simp, hl⟩
        · obtain ⟨j, hj, hj2⟩ := hprop nd2 h3
          exact ⟨j, by simp [hj], hj2⟩

theorem lookupAll_ok_mem (ns : Nodes) (l : List String)
    (out : List ProcessorNode) (h : lookupAll ns l = .ok out)
    (i : String) (hi : i ∈ l) : ∃ nd ∈ out, alookup ns i = some nd := by
  induction l generalizing out with
  | nil => cases hi
  | cons j rest ih =>
    unfold lookupAll at h
    cases hj : alookup ns j with
    | none => rw [hj] at h; cases h
    | some nd =>
      rw [hj] at h
      cases hr : lookupAll ns rest with
      | error e => rw [hr] at h; cases h
      | ok tl =>
        rw [hr] at h
        cases h
        rcases List.mem_cons.mp hi with h1 | h1
        · subst h1
          exact ⟨nd, by simp, hj⟩
        · obtain ⟨nd2, h2, h3⟩ := ih tl hr h1
          exact ⟨nd2, by simp [h2], h3⟩

/-! Lemmas about `_add_node`. -/

theorem add_node_ok (ns : Nodes) (name : String) (node : ProcessorNode)
    (inputs : List String)
    (hWF : WFNodes ns) (hname : node.name = name)
    (hfresh : containsName ns name = false)
    (hpar : ∀ p ∈ inputs, containsName ns p = true) :
    add_node ns name node inputs
      = .ok (inputs.foldl (fun acc i => appendChild acc i name)
              (ns ++ [(name, node)])) := by
  have hforall : ∀ i ∈ inputs, (alookup (ns ++ [(name, node)]) i).isSome = true := by
    intro i hi
    have := hpar i hi
    unfold containsName at this
    cases hl : alookup ns i with
    | none => rw [hl] at this; cases this
    | some v => rw [alookup_append_left _ _ _ _ hl]; rfl
  obtain ⟨out, hout, hprop⟩ := lookupAll_ok_of_forall _ inputs hforall
  have hself : out.any (fun n => n.name == name) = false := by
    rw [List.any_eq_false]
    intro nd hnd
    obtain ⟨i, hi, hl⟩ := hprop nd hnd
    have hiname : nd.name = i := by
      apply WFNodes_alookup _ _ _ (WFNodes_append ns name node hWF hname)
      exact hl
    have hin : i ∈ namesOf ns := (containsName_iff_mem ns i).mp (hpar i hi)
    have hnn : name ∉ namesOf ns := by
      intro hmem
      rw [(containsName_iff_mem ns name).mpr hmem] at hfresh
      cases hfresh
    simp [hiname, beq_iff_eq]
    intro he
    exact hnn (he ▸ hin)
  have hmiss : out.any (fun n => !(containsName (ns ++ [(name, node)]) n.name))
      = false := by
    rw [List.any_eq_false]
    intro nd hnd
    obtain ⟨i, hi, hl⟩ := hprop nd hnd
    have hiname : nd.name = i := by
      apply WFNodes_alookup _ _ _ (WFNodes_append ns name node hWF hname)
      exact hl
    unfold containsName
    rw [hiname, hl]
    simp
  unfold add_node
  rw [if_neg (by simp [hfresh]), hout]
  simp [hself, hmiss]

theorem add_node_ok_inv (ns : Nodes) (name : String) (node : ProcessorNode)
    (inputs : List String) (ns2 : Nodes)
    (hok : add_node ns name node inputs = .ok ns2) :
    containsName ns name = false
    ∧ ∃ out, lookupAll (ns ++ [(name, node)]) inputs = .ok out
        ∧ out.any (fun n => n.name == name) = false
        ∧ ns2 = inputs.foldl (fun acc i => appendChild acc i name)
            (ns ++ [(name, node)]) := by
  unfold add_node at hok
  cases hc : containsName ns name with
  | true => rw [if_pos (by simp [hc])] at hok; cases hok
  | false =>
    rw [if_neg (by simp [hc])] at hok
    cases hla : lookupAll (ns ++ [(name, node)]) inputs with
    | error e => rw [hla] at hok; cases hok
    | ok out =>
      rw [hla] at hok
      cases hself : out.any (fun n => n.name == name) with
      | true => simp [hself] at hok
      | false =>
        cases hmiss : out.any
            (fun n => !(containsName (ns ++ [(name, node)]) n.name)) with
        | true => simp [hself, hmiss] at hok
        | false =>
          simp [hself, hmiss] at hok
          exact ⟨rfl, out, rfl, hself, hok.symm⟩

/-! Lemmas about instruction resolution. -/

theorem NodeSpec.mkNode_name (s : NodeSpec) : s.mkNode.name = s.name := by
  cases s <;> rfl

theorem resolveList_ok_of_valid (specs : List NodeSpec) (ns : Nodes)
    (hWF : WFNodes ns) (hv : validSpecs specs (namesOf ns) = true) :
    ∃ ns2, resolveList specs ns = .ok ns2
      ∧ WFNodes ns2
      ∧ namesOf ns2 = namesOf ns ++ specs.map NodeSpec.name
      ∧ (∀ a b, hasEdge ns a b = true → hasEdge ns2 a b = true)
      ∧ (∀ s ∈ specs, ∀ p ∈ s.parents, hasEdge ns2 p s.name = true) := by
  induction specs generalizing ns with
  | nil =>
    refine ⟨ns, rfl, hWF, by simp, fun a b h => h, ?_⟩
    intro s hs
    cases hs
  | cons s rest ih =>
    unfold validSpecs at hv
    rw [Bool.and_eq_true, Bool.and_eq_true] at hv
    obtain ⟨⟨h1, h2⟩, h3⟩ := hv
    have hfresh : containsName ns s.name = false := by
      cases hcn : containsName ns s.name with
      | false => rfl
      | true =>
        have hmem := (containsName_iff_mem ns s.name).mp hcn
        exact absurd hmem (by simpa using h1)
    have hpar : ∀ p ∈ s.parents, containsName ns p = true := by
      intro p hp
      rw [List.all_eq_true] at h2
      have := h2 p hp
      apply (containsName_iff_mem ns p).mpr
      simpa using this
    have hnode := add_node_ok ns s.name s.mkNode s.parents hWF
      (NodeSpec.mkNode_name s) hfresh hpar
    have hWF1 : WFNodes (s.parents.foldl (fun acc i => appendChild acc i s.name)
        (ns ++ [(s.name, s.mkNode)])) :=
      WFNodes_foldl _ _ _ (WFNodes_append _ _ _ hWF (NodeSpec.mkNode_name s))
    have hn1 : namesOf (s.parents.foldl (fun acc i => appendChild acc i s.name)
        (ns ++ [(s.name, s.mkNode)])) = namesOf ns ++ [s.name] := by
      rw [foldl_appendChild_names, namesOf_append]
    have hv1 : validSpecs rest (namesOf (s.parents.foldl
        (fun acc i => appendChild acc i s.name)
        (ns ++ [(s.name, s.mkNode)]))) = true := by
      rw [hn1]
      exact h3
    obtain ⟨ns2, hns2, hWF2, hnames2, hmono2, hedges2⟩ := ih _ hWF1 hv1
    refine ⟨ns2, ?_, hWF2, ?_, ?_, ?_⟩
    · unfold resolveList resolveOne
      rw [hnode]
      exact hns2
    · rw [hnames2, hn1]
      simp
    · intro a b h
      exact hmono2 a b (foldl_appendChild_mono _ _ _ _ _
        (hasEdge_mono_append _ _ _ _ h))
    · intro s2 hs2
      rcases List.mem_cons.mp hs2 with h | h
      · subst h
        intro p hp
        apply hmono2
        apply foldl_appendChild_edge _ _ _ _ hp
        unfold containsName
        have := hpar p hp
        unfold containsName at this
        cases hl : alookup ns p with
        | none => rw [hl] at this; cases this
        | some v =>
          rw [alookup_append_left _ _ _ _ hl]
          rfl
      · exact hedges2 s2 h

theorem resolveList_ok_names (specs : List NodeSpec) (ns ns2 : Nodes)
    (hok : resolveList specs ns = .ok ns2) :
    namesOf ns2 = namesOf ns ++ specs.map NodeSpec.name
    ∧ ((namesOf ns).Nodup → (namesOf ns2).Nodup) := by
  induction specs generalizing ns with
  | nil =>
    unfold resolveList at hok
    cases hok
    exact ⟨by simp, fun h => h⟩
  | cons s rest ih =>
    unfold resolveList at hok
    cases hr : resolveOne ns s with
    | error e => rw [hr] at hok; cases hok
    | ok ns1 =>
      rw [hr] at hok
      unfold resolveOne at hr
      obtain ⟨hc, out, hla, hany, hfold⟩ := add_node_ok_inv _ _ _ _ _ hr
      have hn1 : namesOf ns1 = namesOf ns ++ [s.name] := by
        rw [hfold, foldl_appendChild_names, namesOf_append]
      obtain ⟨ha, hb⟩ := ih ns1 hok
      constructor
      · rw [ha, hn1]
        simp
      · intro hnd
        apply hb
        rw [hn1]
        have hnotmem : s.name ∉ namesOf ns := by
          intro hmem
          rw [(containsName_iff_mem ns s.name).mpr hmem] at hc
          cases hc
        simp [List.nodup_append, hnd, hnotmem]

theorem resolveList_ok_no_self (specs : List NodeSpec) (ns ns2 : Nodes)
    (hWF : WFNodes ns) (hok : resolveList specs ns = .ok ns2) :
    WFNodes ns2 ∧ ∀ s ∈ specs, s.name ∉ s.parents := by
  induction specs generalizing ns with
  | nil =>
    unfold resolveList at hok
    cases hok
    refine ⟨hWF, ?_⟩
    intro s hs
    cases hs
  | cons s rest ih =>
    unfold resolveList at hok
    cases hr : resolveOne ns s with
    | error e => rw [hr] at hok; cases hok
    | ok ns1 =>
      rw [hr] at hok
      unfold resolveOne at hr
      obtain ⟨hc, out, hla, hany, hfold⟩ := add_node_ok_inv _ _ _ _ _ hr
      have hWF1 : WFNodes ns1 := by
        rw [hfold]
        exact WFNodes_foldl _ _ _
          (WFNodes_append _ _ _ hWF (NodeSpec.mkNode_name s))
      have hns : s.name ∉ s.parents := by
        intro hmem
        have hnone : alookup ns s.name = none := by
          apply alookup_none_of_contains_false
          exact hc
        have hl : alookup (ns ++ [(s.name, s.mkNode)]) s.name = some s.mkNode := by
          rw [alookup_append_right _ _ _ hnone, alookup_cons,
            if_pos (by simp)]
        obtain ⟨nd, hnd, hnd2⟩ := lookupAll_ok_mem _ _ _ hla s.name hmem
        rw [hl] at hnd2
        cases hnd2
        have : out.any (fun n => n.name == s.name) = true :=
          List.any_eq_true.mpr ⟨s.mkNode, hnd, by simp [NodeSpec.mkNode_name]⟩
        rw [hany] at this
        cases this
      obtain ⟨hWF2, hrest⟩ := ih ns1 hWF1 hok
      refine ⟨hWF2, ?_⟩
      intro s2 hs2
      rcases List.mem_cons.mp hs2 with h | h
      · subst h
        exact hns
      · exact hrest s2 h

theorem validSpecs_cons (s : NodeSpec) (rest : List NodeSpec)
    (seen : List String) :
    validSpecs (s :: rest) seen
      = (!seen.contains s.name && (s.parents.all fun p => seen.contains p)
          && validSpecs rest (seen ++ [s.name])) := rfl

theorem validSpecs_append (l1 l2 : List NodeSpec) (seen : List String) :
    validSpecs (l1 ++ l2) seen
      = (validSpecs l1 seen
          && validSpecs l2 (seen ++ l1.map NodeSpec.name)) := by
  induction l1 generalizing seen with
  | nil => simp [validSpecs]
  | cons s rest ih =>
    rw [List.cons_append, validSpecs_cons, validSpecs_cons,
      ih (seen ++ [s.name])]
    simp [Bool.and_assoc, List.append_assoc]

theorem build_ok_inv (b : TopologyBuilder) (t : Topology)
    (hb : b.build = .ok t) :
    ∃ n1 n2, resolveList (b.sources_.map NodeSpec.src) [] = .ok n1
      ∧ resolveList (b.processors_.map NodeSpec.proc) n1 = .ok n2
      ∧ resolveList (b.sinks_.map NodeSpec.snk) n2 = .ok t.nodes := by
  unfold TopologyBuilder.build at hb
  split at hb
  next e h1 => cases hb
  next n1 h1 =>
    split at hb
    next e h2 => cases hb
    next n2 h2 =>
      split at hb
      next e h3 => cases hb
      next n3 h3 =>
        cases hb
        exact ⟨n1, n2, h1, h2, h3⟩

/-! The claims. -/

/-- C1: for every sequence of source/processor/sink registrations with
pairwise-unique names in which every declared parent name was registered
earlier (in the fixed resolution order: all sources, then all processors,
then all sinks), build() succeeds; the returned Topology lists the sources,
processors and sinks resolved in that fixed order (the node mapping keys are
exactly the instruction names in resolution order); and every declared
parent-child edge is present in both directions: the child is present in the
name-to-node mapping and the parent children list contains the child. -/
theorem build_valid_registrations_ok (b : TopologyBuilder)
    (h : validSpecs (allSpecs b) [] = true) :
    ∃ t, b.build = .ok t
      ∧ t.sources = b.sources_.map SourceSpec.name
      ∧ t.processors = b.processors_.map ProcessorSpec.name
      ∧ t.sinks = b.sinks_.map SinkSpec.name
      ∧ namesOf t.nodes = (allSpecs b).map NodeSpec.name
      ∧ ∀ s ∈ allSpecs b, containsName t.nodes s.name = true
          ∧ ∀ p ∈ s.parents, hasEdge t.nodes p s.name = true := by
  unfold allSpecs at h
  rw [validSpecs_append, validSpecs_append, Bool.and_eq_true,
    Bool.and_eq_true] at h
  obtain ⟨⟨hv1, hv2⟩, hv3⟩ := h
  obtain ⟨n1, hr1, hWF1, hn1, hmono1, hedge1⟩ :=
    resolveList_ok_of_valid (b.sources_.map NodeSpec.src) [] WFNodes_nil hv1
  have hv2n : validSpecs (b.processors_.map NodeSpec.proc) (namesOf n1)
      = true := by
    rw [hn1]
    exact hv2
  obtain ⟨n2, hr2, hWF2, hn2, hmono2, hedge2⟩ :=
    resolveList_ok_of_valid (b.processors_.map NodeSpec.proc) n1 hWF1 hv2n
  have hv3n : validSpecs (b.sinks_.map NodeSpec.snk) (namesOf n2) = true := by
    have : namesOf n2 = ([] : List String)
        ++ (b.sources_.map NodeSpec.src
            ++ b.processors_.map NodeSpec.proc).map NodeSpec.name := by
      rw [hn2, hn1]
      simp [namesOf]
    rw [this]
    exact hv3
  obtain ⟨n3, hr3, hWF3, hn3, hmono3, hedge3⟩ :=
    resolveList_ok_of_valid (b.sinks_.map NodeSpec.snk) n2 hWF2 hv3n
  have hnames : namesOf n3 = (allSpecs b).map NodeSpec.name := by
    rw [hn3, hn2, hn1]
    unfold allSpecs
    simp [namesOf]
  refine ⟨⟨n3, b.sources_.map SourceSpec.name,
    b.processors_.map ProcessorSpec.name, b.sinks_.map SinkSpec.name,
    b.state_stores_.map (fun p => (p.1, instantiate p.2))⟩,
    ?_, rfl, rfl, rfl, hnames, ?_⟩
  · simp only [TopologyBuilder.build, hr1, hr2, hr3]
  · intro s hs
    have hcont : containsName n3 s.name = true := by
      apply (containsName_iff_mem _ _).mpr
      rw [hnames]
      exact List.mem_map_of_mem _ hs
    refine ⟨hcont, ?_⟩
    unfold allSpecs at hs
    rcases List.mem_append.mp hs with hs12 | hs3
    · rcases List.mem_append.mp hs12 with hs1 | hs2
      · intro p hp
        exact hmono3 _ _ (hmono2 _ _ (hedge1 s hs1 p hp))
      · intro p hp
        exact hmono3 _ _ (hedge2 s hs2 p hp)
    · intro p hp
      exact hedge3 s hs3 p hp

/-- Witness for C1 at the spec example scenario (source "src", processor
"proc" with parent "src", sink "snk" with parent "proc"). -/
theorem build_valid_registrations_ok_witness :
    validSpecs (allSpecs exampleBuilder) [] = true
    ∧ ∃ t, exampleBuilder.build = .ok t
      ∧ t.sources = exampleBuilder.sources_.map SourceSpec.name
      ∧ t.processors = exampleBuilder.processors_.map ProcessorSpec.name
      ∧ t.sinks = exampleBuilder.sinks_.map SinkSpec.name
      ∧ namesOf t.nodes = (allSpecs exampleBuilder).map NodeSpec.name
      ∧ ∀ s ∈ allSpecs exampleBuilder, containsName t.nodes s.name = true
          ∧ ∀ p ∈ s.parents, hasEdge t.nodes p s.name = true :=
  ⟨by decide, build_valid_registrations_ok exampleBuilder (by decide)⟩

/-- C2: evaluation of the code at the failing input of the claim. Registering
processor "proc" with the never-registered parent "missing" (the call itself
does not raise) makes build() fail with the Python built-in KeyError
"missing" raised by the dict lookup in `_add_node`, not with the
KafkaStreamsError construction error that the claim states and that the
unreachable second check of `_add_node` was written to raise. -/
theorem build_missing_parent_keyError :
    TopologyBuilder.init.processor "proc" 0 ["missing"]
      = .ok (procMissingBuilder, .builderRef)
    ∧ procMissingBuilder.build = .error (.keyError "missing")
    ∧ (PyError.keyError "missing").isKafkaStreamsError = false :=
  ⟨rfl, rfl, rfl⟩

/-- C3 counterexample: dupPairBuilder holds exactly one pair of registrations
sharing the name "a" (a processor and a sink, both with parent "b"); build()
fails, but with the KeyError "b" from the missing-parent lookup of the
earlier-resolved registration — not with a topology construction error — so
the claim as stated is false at this input. -/
theorem build_duplicate_pair_keyError :
    dupPairBuilder.processors_.map ProcessorSpec.name = ["a"]
    ∧ dupPairBuilder.sinks_.map SinkSpec.name = ["a"]
    ∧ dupPairBuilder.build = .error (.keyError "b")
    ∧ (PyError.keyError "b").isKafkaStreamsError = false :=
  ⟨rfl, rfl, rfl, rfl⟩

/-- C3 amended: whenever two registrations use the same node name, build()
fails and no Topology is returned; the error is the duplicate-name
construction error unless an earlier-resolved registration fails first (for
example with the missing-parent KeyError). -/
theorem build_duplicate_name_fails (b : TopologyBuilder)
    (h : ¬ ((allSpecs b).map NodeSpec.name).Nodup) :
    ∃ e, b.build = .error e := by
  cases hb : b.build with
  | error e => exact ⟨e, rfl⟩
  | ok t =>
    exfalso
    apply h
    obtain ⟨n1, n2, h1, h2, h3⟩ := build_ok_inv b t hb
    obtain ⟨e1, d1⟩ := resolveList_ok_names _ _ _ h1
    obtain ⟨e2, d2⟩ := resolveList_ok_names _ _ _ h2
    obtain ⟨e3, d3⟩ := resolveList_ok_names _ _ _ h3
    have hnodup : (namesOf t.nodes).Nodup := by
      apply d3
      apply d2
      apply d1
      simp [namesOf]
    rw [e3, e2, e1] at hnodup
    unfold allSpecs
    simpa [namesOf, List.map_append] using hnodup

/-- Witness for the amended C3: two sources both named "a"; here build()
fails with the duplicate-name construction error itself. -/
theorem build_duplicate_name_fails_witness :
    (¬ ((allSpecs dupSourcesBuilder).map NodeSpec.name).Nodup)
    ∧ (∃ e, dupSourcesBuilder.build = .error e)
    ∧ dupSourcesBuilder.build = .error (.duplicateName "a") :=
  ⟨by decide, build_duplicate_name_fails dupSourcesBuilder (by decide), rfl⟩

/-- C4 counterexample: the single processor "p" declares the parent list
["p", "q"] containing its own name; build() fails, but with the KeyError "q"
raised by the lookup of the absent parent "q" (evaluated after the
self-lookup of "p" succeeds) — not with a topology construction error — so
the claim as stated is false at this input. -/
theorem build_self_input_keyError :
    ("p" ∈ (ProcessorSpec.mk "p" 0 ["p", "q"]).parents)
    ∧ selfMissingBuilder.processors_ = [⟨"p", 0, ["p", "q"]⟩]
    ∧ selfMissingBuilder.build = .error (.keyError "q")
    ∧ (PyError.keyError "q").isKafkaStreamsError = false :=
  ⟨by decide, rfl, rfl, rfl⟩

/-- C4 amended: a processor or sink registration whose declared parent list
contains its own name always makes build() fail (no Topology is returned);
the failure is the self-input construction error when every declared parent
lookup succeeds, and may be a missing-parent KeyError otherwise. -/
theorem build_self_input_fails (b : TopologyBuilder) (s : NodeSpec)
    (hs : s ∈ allSpecs b) (hself : s.name ∈ s.parents) :
    ∃ e, b.build = .error e := by
  cases hb : b.build with
  | error e => exact ⟨e, rfl⟩
  | ok t =>
    exfalso
    obtain ⟨n1, n2, h1, h2, h3⟩ := build_ok_inv b t hb
    obtain ⟨hWF1, hno1⟩ := resolveList_ok_no_self _ _ _ WFNodes_nil h1
    obtain ⟨hWF2, hno2⟩ := resolveList_ok_no_self _ _ _ hWF1 h2
    obtain ⟨hWF3, hno3⟩ := resolveList_ok_no_self _ _ _ hWF2 h3
    unfold allSpecs at hs
    rcases List.mem_append.mp hs with hs12 | hs3
    · rcases List.mem_append.mp hs12 with hs1 | hs2
      · exact hno1 s hs1 hself
      · exact hno2 s hs2 hself
    · exact hno3 s hs3 hself

/-- Witness for the amended C4: a processor whose only declared parent is
itself; here build() fails with the self-input construction error itself. -/
theorem build_self_input_fails_witness :
    ((NodeSpec.proc ⟨"p", 0, ["p"]⟩) ∈ allSpecs selfOnlyBuilder)
    ∧ ("p" ∈ (NodeSpec.proc ⟨"p", 0, ["p"]⟩).parents)
    ∧ (∃ e, selfOnlyBuilder.build = .error e)
    ∧ selfOnlyBuilder.build = .error (.selfInput "p") :=
  ⟨by decide, by decide,
   build_self_input_fails selfOnlyBuilder (NodeSpec.proc ⟨"p", 0, ["p"]⟩)
     (by decide) (by decide), rfl⟩

/-- C5: processor(name, type, *parents) validates the parent list eagerly, at
the call itself and independently of any build() call: with an empty parent
list it raises the minimum-one-input KafkaStreamsError construction error,
and with a non-empty parent list it does not raise — it records the deferred
instruction and returns self. -/
theorem processor_empty_parents_eager (b : TopologyBuilder) (name : String)
    (tag : Nat) (parents : List String) :
    (parents = [] →
      b.processor name tag parents = .error (.noInputs name)
      ∧ (PyError.noInputs name).isKafkaStreamsError = true)
    ∧ (parents ≠ [] →
      b.processor name tag parents
        = .ok ({ b with processors_ := b.processors_ ++ [⟨name, tag, parents⟩] },
               .builderRef)) := by
  constructor
  · intro h
    subst h
    exact ⟨rfl, rfl⟩
  · intro h
    cases parents with
    | nil => exact absurd rfl h
    | cons p ps =>
      unfold TopologyBuilder.processor
      rw [if_neg (by simp)]

/-- Witness for C5: the empty-parents call raises, the one-parent call
returns the extended builder and self. -/
theorem processor_empty_parents_eager_witness :
    (TopologyBuilder.init.processor "proc" 0 [] = .error (.noInputs "proc")
      ∧ (PyError.noInputs "proc").isKafkaStreamsError = true)
    ∧ TopologyBuilder.init.processor "proc" 0 ["src"]
        = .ok ({ TopologyBuilder.init with
                  processors_ := TopologyBuilder.init.processors_
                    ++ [⟨"proc", 0, ["src"]⟩] }, .builderRef) :=
  ⟨(processor_empty_parents_eager TopologyBuilder.init "proc" 0 []).1 rfl,
   (processor_empty_parents_eager TopologyBuilder.init "proc" 0 ["src"]).2
     (by decide)⟩

/-- C6 counterexample: sink("snk", "topic-out") with an empty parent list
does not raise at the call — it records the instruction and returns the
builder — and the subsequent build() even succeeds, producing a parentless
sink node, contradicting the claim that the call must raise a construction
error immediately. -/
theorem sink_empty_parents_no_raise :
    TopologyBuilder.init.sink "snk" "topic-out" []
      = .ok (⟨[], [], [], [⟨"snk", "topic-out", []⟩], []⟩, .builderRef)
    ∧ (⟨[], [], [], [⟨"snk", "topic-out", []⟩], []⟩ : TopologyBuilder).build
      = .ok ⟨[("snk", ⟨"snk", .sinkProc "topic-out", []⟩)], [], [], ["snk"], []⟩ :=
  ⟨rfl, rfl⟩

/-- C6 amended: sink(name, topic, *parents) performs no eager validation of
the parent list: for every parent list, the empty one included, the call does
not raise; it records the deferred sink instruction and returns self, leaving
all parent handling to build(). -/
theorem sink_no_eager_validation (b : TopologyBuilder) (name topic : String)
    (parents : List String) :
    b.sink name topic parents
      = .ok ({ b with sinks_ := b.sinks_ ++ [⟨name, topic, parents⟩] },
             .builderRef) := rfl

/-- C7: state_store raises the store-is-None KafkaStreamsError immediately
when the factory is absent; a first call with a factory and a fresh store
name does not raise and records the factory under that name; and a second
call reusing the same store name raises the duplicate-store KafkaStreamsError
immediately (its message reads the name attribute of the new factory). -/
theorem state_store_validation (b : TopologyBuilder) (n : String)
    (st : StoreFactory) (args args2 : List String) :
    (b.state_store n none args = .error .storeNone
      ∧ PyError.storeNone.isKafkaStreamsError = true)
    ∧ (alookup b.state_stores_ n = none →
        b.state_store n (some st) args
          = .ok ({ b with state_stores_ := b.state_stores_ ++ [(n, st)] },
                 .noneVal)
        ∧ alookup (b.state_stores_ ++ [(n, st)]) n = some st
        ∧ ∀ st2, ({ b with state_stores_ := b.state_stores_ ++ [(n, st)] }
              : TopologyBuilder).state_store n (some st2) args2
            = .error (.duplicateStore st2.name)
          ∧ (PyError.duplicateStore st2.name).isKafkaStreamsError = true) := by
  refine ⟨⟨rfl, rfl⟩, ?_⟩
  intro h
  have hl : alookup (b.state_stores_ ++ [(n, st)]) n = some st := by
    rw [alookup_append_right _ _ _ h, alookup_cons, if_pos (by simp)]
  refine ⟨?_, hl, ?_⟩
  · simp [TopologyBuilder.state_store, h]
  · intro st2
    constructor
    · simp [TopologyBuilder.state_store, hl]
    · rfl

/-- Witness for C7: at a fresh builder, the None-factory call raises, the
first registration of "store1" succeeds and records the factory, the second
raises the duplicate-store error. -/
theorem state_store_validation_witness :
    TopologyBuilder.init.state_store "store1" none [] = .error .storeNone
    ∧ TopologyBuilder.init.state_store "store1" (some ⟨"store1", 5⟩) []
        = .ok (storeOnceBuilder, .noneVal)
    ∧ alookup storeOnceBuilder.state_stores_ "store1" = some ⟨"store1", 5⟩
    ∧ storeOnceBuilder.state_store "store1" (some ⟨"store1", 6⟩) []
        = .error (.duplicateStore "store1") :=
  ⟨(state_store_validation TopologyBuilder.init "store1" ⟨"store1", 5⟩ [] []).1.1,
   ((state_store_validation TopologyBuilder.init "store1" ⟨"store1", 5⟩ [] []).2
      rfl).1,
   ((state_store_validation TopologyBuilder.init "store1" ⟨"store1", 5⟩ [] []).2
      rfl).2.1,
   (((state_store_validation TopologyBuilder.init "store1" ⟨"store1", 5⟩ [] []).2
      rfl).2.2 ⟨"store1", 6⟩).1⟩

/-- C8: get_store(name) on a Context returns the store named name exactly
when the context is bound to a current node and name is among the stores
attached to that node; an unbound context fails with the no-current-node
KafkaStreamsError, and a bound context whose node does not carry name fails
with the store-not-found KafkaStreamsError — reading only the bound node, so
a store with that name attached to a different node is irrelevant. -/
theorem get_store_spec (ctx : Context) (name : String) :
    (∀ s, ctx.get_store name = .ok s ↔
        ∃ node, ctx.currentNode = some node
          ∧ alookup node.stores name = some s)
    ∧ (ctx.currentNode = none →
        ctx.get_store name = .error .noCurrentNode
        ∧ PyError.noCurrentNode.isKafkaStreamsError = true)
    ∧ (∀ node, ctx.currentNode = some node →
        alookup node.stores name = none →
        ctx.get_store name = .error (.storeNotFound name node.name)
        ∧ (PyError.storeNotFound name node.name).isKafkaStreamsError
            = true) := by
  refine ⟨?_, ?_, ?_⟩
  · intro s
    constructor
    · intro h
      unfold Context.get_store at h
      split at h
      · cases h
      next node hc =>
        split at h
        · cases h
        next s2 hl =>
          cases h
          exact ⟨node, hc, hl⟩
    · rintro ⟨node, hc, hl⟩
      simp [Context.get_store, hc, hl]
  · intro hc
    exact ⟨by simp [Context.get_store, hc], rfl⟩
  · intro node hc hl
    exact ⟨by simp [Context.get_store, hc, hl], rfl⟩

/-- Witness for C8, on the scenario of the spec: bound to node "N" carrying
store "A", get_store("A") returns the store and get_store("B") fails with
store-not-found although "B" is attached to node "M"; bound to "M",
get_store("B") succeeds; a freshly constructed unbound context fails with
no-current-node. -/
theorem get_store_spec_witness :
    ctxN.get_store "A" = .ok ⟨1⟩
    ∧ ctxN.get_store "B" = .error (.storeNotFound "B" "N")
    ∧ ctxM.get_store "B" = .ok ⟨2⟩
    ∧ Context.init.get_store "A" = .error .noCurrentNode :=
  ⟨((get_store_spec ctxN "A").1 ⟨1⟩).mpr ⟨nodeN, rfl, rfl⟩,
   ((get_store_spec ctxN "B").2.2 nodeN rfl rfl).1,
   ((get_store_spec ctxM "B").1 ⟨2⟩).mpr ⟨nodeM, rfl, rfl⟩,
   ((get_store_spec Context.init "A").2.1 rfl).1⟩

/-- C9 counterexample: state_store has no return statement, so it returns
None rather than the builder: at this concrete successful call the returned
value is noneVal, not builderRef, refuting the claim for state_store. -/
theorem state_store_returns_none :
    TopologyBuilder.init.state_store "store1" (some ⟨"store1", 5⟩) []
      = .ok (storeOnceBuilder, .noneVal)
    ∧ PyRet.noneVal ≠ PyRet.builderRef :=
  ⟨rfl, by decide⟩

/-- C9 amended: source and sink always return the builder itself, processor
returns the builder on its non-raising (non-empty-parents) path, so these
three chain; state_store returns None on its successful path and is not
chainable. -/
theorem builder_returns (b : TopologyBuilder) (n1 n2 n3 sn topic : String)
    (topics parents args : List String) (tag : Nat) (st : StoreFactory) :
    (∃ b1, b.source n1 topics = .ok (b1, .builderRef))
    ∧ (∃ b2, b.sink n2 topic parents = .ok (b2, .builderRef))
    ∧ (parents ≠ [] →
        ∃ b3, b.processor n3 tag parents = .ok (b3, .builderRef))
    ∧ (∀ r, b.state_store sn (some st) args = .ok r → r.2 = .noneVal) := by
  refine ⟨⟨_, rfl⟩, ⟨_, rfl⟩, ?_, ?_⟩
  · intro h
    cases parents with
    | nil => exact absurd rfl h
    | cons p ps =>
      exact ⟨{ b with processors_ := b.processors_ ++ [⟨n3, tag, p :: ps⟩] },
        by unfold TopologyBuilder.processor; rw [if_neg (by simp)]⟩
  · intro r h
    simp only [TopologyBuilder.state_store] at h
    split at h
    · cases h
    · cases h
      rfl

/-- Witness for C9 amended, at a fresh builder. -/
theorem builder_returns_witness :
    (∃ b1, TopologyBuilder.init.source "src" ["topic-in"]
        = .ok (b1, .builderRef))
    ∧ (∃ b2, TopologyBuilder.init.sink "snk" "topic-out" ["src"]
        = .ok (b2, .builderRef))
    ∧ (∃ b3, TopologyBuilder.init.processor "proc" 0 ["src"]
        = .ok (b3, .builderRef))
    ∧ (storeOnceBuilder, PyRet.noneVal).2 = PyRet.noneVal := by
  obtain ⟨w1, w2, w3, w4⟩ := builder_returns TopologyBuilder.init "src" "snk"
    "proc" "store1" "topic-out" ["topic-in"] ["src"] [] 0 ⟨"store1", 5⟩
  exact ⟨w1, w2, w3 (by decide), w4 (storeOnceBuilder, .noneVal) rfl⟩

/-- C10: the attachment-target arguments of state_store have no effect: two
calls differing only in them produce identical results; the node graph
build() produces is independent of the registered store factories, which only
determine the state_stores mapping of the Topology (each factory
instantiated); and every node an instruction allocates carries only its name,
its processor and an initially empty children list, never a store mapping. -/
theorem state_store_args_no_effect (b : TopologyBuilder) (n : String)
    (st : Option StoreFactory) (args args2 : List String)
    (stores2 : List (String × StoreFactory)) :
    b.state_store n st args = b.state_store n st args2
    ∧ ({ b with state_stores_ := stores2 } : TopologyBuilder).build
        = b.build.map (fun t =>
            { t with state_stores :=
                stores2.map (fun p => (p.1, instantiate p.2)) })
    ∧ (∀ s : NodeSpec, s.mkNode = ⟨s.name, s.mkNode.processor, []⟩) := by
  refine ⟨rfl, ?_, ?_⟩
  · unfold TopologyBuilder.build
    cases h1 : resolveList (b.sources_.map NodeSpec.src) [] with
    | error e => simp [h1, Except.map]
    | ok n1 =>
      simp only [h1]
      cases h2 : resolveList (b.processors_.map NodeSpec.proc) n1 with
      | error e => simp [h2, Except.map]
      | ok n2 =>
        simp only [h2]
        cases h3 : resolveList (b.sinks_.map NodeSpec.snk) n2 with
        | error e => simp [h3, Except.map]
        | ok n3 => simp [h3, Except.map]
  · intro s
    cases s <;> rfl
